import Mathlib

/-!
Shallow embedding of the cron scheduler subsystem of the mail-api repository
(`src/services/cron/scheduler/`): `cron_utils.py`, `scheduler_manager.py`,
`task_executor.py` and `task_monitor.py`.  The croniter library is a
third-party dependency whose source is not part of the repository; its
expression acceptance and next-fire-time computation are modelled from the
specification and marked as such below.  Machine times are seconds since the
Unix epoch, modelled as `Nat`.
-/

namespace MailApi

/-- ASCII whitespace as recognised by Python's `str.strip` and `str.split`. -/
def isPyWs (c : Char) : Bool :=
  c = ' ' || c = '\t' || c = '\n' || c = '\r' || c = '\x0b' || c = '\x0c'

/-- Python `str.strip()` on a character list: drop leading and trailing
whitespace. -/
def pyStripChars (l : List Char) : List Char :=
  ((l.dropWhile isPyWs).reverse.dropWhile isPyWs).reverse

/-- Python `str.strip()`. -/
def pyStrip (s : String) : String := String.mk (pyStripChars s.data)

/-- Helper for Python `str.split()` with no separator argument: `acc` holds
the characters of the word currently being read, in reverse. -/
def splitWsAux : List Char → List Char → List (List Char)
  | acc, [] => if acc.isEmpty then [] else [acc.reverse]
  | acc, c :: rest =>
    if isPyWs c then
      if acc.isEmpty then splitWsAux [] rest else acc.reverse :: splitWsAux [] rest
    else splitWsAux (c :: acc) rest

/-- Python `str.split()` with no separator: split on runs of whitespace,
producing no empty words. -/
def splitWsChars (l : List Char) : List (List Char) := splitWsAux [] l

/-- Python `str.split()` on strings. -/
def splitWs (s : String) : List String := (splitWsChars s.data).map String.mk

/-! ## Cron field grammar

Modelled from the spec: the croniter library validates the individual fields
of a cron expression; its source is not part of this repository.  The model
accepts, per field, a nonempty comma-separated list of items, each item being
`*`, a number, a range `a-b`, or one of those with a step suffix `/n`
(`n ≥ 1`), with the numbers within the positional bounds of the field. -/

/-- The six positional kinds of cron fields. -/
inductive CronFieldKind
  | second
  | minute
  | hour
  | day
  | month
  | weekday
deriving DecidableEq, Repr

/-- Lower bound of the numeric values of a field. -/
def fieldLo : CronFieldKind → Nat
  | .day => 1
  | .month => 1
  | _ => 0

/-- Upper bound of the numeric values of a field. -/
def fieldHi : CronFieldKind → Nat
  | .second => 59
  | .minute => 59
  | .hour => 23
  | .day => 31
  | .month => 12
  | .weekday => 6

/-- Split a character list at every occurrence of `sep`; always returns at
least one (possibly empty) segment. -/
def splitOnChar (sep : Char) : List Char → List (List Char)
  | [] => [[]]
  | c :: rest =>
    let r := splitOnChar sep rest
    if c = sep then [] :: r
    else
      match r with
      | [] => [[c]]
      | h :: t => (c :: h) :: t

/-- Parse a nonempty all-digit character list as a decimal number. -/
def parseDigits : List Char → Option Nat
  | [] => none
  | l =>
    if l.all Char.isDigit then
      some (l.foldl (fun n c => 10 * n + (c.toNat - 48)) 0)
    else none

/-- Is `n` within the bounds of field kind `k`. -/
def inBounds (k : CronFieldKind) (n : Nat) : Bool :=
  fieldLo k ≤ n && n ≤ fieldHi k

/-- Validity of a step-free item body: `*`, a number, or a range `a-b`. -/
def bodyValid (k : CronFieldKind) (body : List Char) : Bool :=
  if body = ['*'] then true
  else
    match splitOnChar '-' body with
    | [x] =>
      match parseDigits x with
      | some a => inBounds k a
      | none => false
    | [x, y] =>
      match parseDigits x, parseDigits y with
      | some a, some b => inBounds k a && inBounds k b && a ≤ b
      | _, _ => false
    | _ => false

/-- Validity of one comma-separated item, with an optional `/step` suffix. -/
def itemValid (k : CronFieldKind) (item : List Char) : Bool :=
  match splitOnChar '/' item with
  | [body] => bodyValid k body
  | [body, step] =>
    bodyValid k body &&
      (match parseDigits step with
       | some n => 1 ≤ n
       | none => false)
  | _ => false

/-- Syntactic validity of one whole cron field. -/
def fieldValid (k : CronFieldKind) (field : String) : Bool :=
  (splitOnChar ',' field.data).all (itemValid k)

/-- A parsed cron expression: one pattern per position.  For a 5-field
expression the second field is fixed to `"0"` (such expressions fire at
second 0 of matching minutes). -/
structure CronSpec where
  second : String
  minute : String
  hour : String
  day : String
  month : String
  weekday : String
deriving Repr

/-- Modelled from the spec: croniter's construction of a cron iterator, which
is not part of this repository.  Per the spec, an expression is accepted when
it has 5 fields (`min hour day month weekday`) or 6 fields
(`sec min hour day month weekday`), each syntactically valid; any other
field count or an invalid field is rejected (`none`). -/
def parseCron (s : String) : Option CronSpec :=
  match splitWs s with
  | [mi, h, d, mo, w] =>
    if fieldValid .minute mi && fieldValid .hour h && fieldValid .day d &&
        fieldValid .month mo && fieldValid .weekday w then
      some ⟨"0", mi, h, d, mo, w⟩
    else none
  | [se, mi, h, d, mo, w] =>
    if fieldValid .second se && fieldValid .minute mi && fieldValid .hour h &&
        fieldValid .day d && fieldValid .month mo && fieldValid .weekday w then
      some ⟨se, mi, h, d, mo, w⟩
    else none
  | _ => none

/-- Does croniter accept the expression (construction does not raise). -/
def croniterAccepts (s : String) : Bool := (parseCron s).isSome

/-- `cron_utils.validate_cron_expression`: returns true when constructing a
croniter over the expression does not raise, false otherwise
(src/services/cron/scheduler/cron_utils.py, lines 13-28). -/
def validate_cron_expression (cron_expression : String) : Bool :=
  croniterAccepts cron_expression

/-- The positional field kinds of a cron expression with `n` fields. -/
def cronKindsFor (n : Nat) : List CronFieldKind :=
  if n = 5 then [.minute, .hour, .day, .month, .weekday]
  else if n = 6 then [.second, .minute, .hour, .day, .month, .weekday]
  else []

/-! ## Calendar arithmetic and cron matching

Modelled from the spec: croniter's computation of fire times.  A point in
time is a second count since the Unix epoch; the civil date is recovered
with the standard era-based algorithm. -/

/-- Civil date (year, month, day) of a day count since 1970-01-01. -/
def civilFromDays (z : Nat) : Nat × Nat × Nat :=
  let z' := z + 719468
  let era := z' / 146097
  let doe := z' % 146097
  let yoe := ((doe - doe / 1460) + doe / 36524 - doe / 146096) / 365
  let doy := doe - (365 * yoe + yoe / 4 - yoe / 100)
  let mp := (5 * doy + 2) / 153
  let d := doy - (153 * mp + 2) / 5 + 1
  let m := if mp < 10 then mp + 3 else mp - 9
  (if m ≤ 2 then era * 400 + yoe + 1 else era * 400 + yoe, m, d)

/-- The start value used for `/step` items: `*` steps from the field's lower
bound; a number or range steps from its first number. -/
def bodyStart (k : CronFieldKind) (body : List Char) : Nat :=
  if body = ['*'] then fieldLo k
  else
    match splitOnChar '-' body with
    | x :: _ => (parseDigits x).getD 0
    | [] => 0

/-- Does a step-free item body match value `v`. -/
def bodyMatches (body : List Char) (v : Nat) : Bool :=
  if body = ['*'] then true
  else
    match splitOnChar '-' body with
    | [x] => parseDigits x == some v
    | [x, y] =>
      match parseDigits x, parseDigits y with
      | some a, some b => a ≤ v && v ≤ b
      | _, _ => false
    | _ => false

/-- Does one comma-separated item match value `v`. -/
def itemMatches (k : CronFieldKind) (item : List Char) (v : Nat) : Bool :=
  match splitOnChar '/' item with
  | [body] => bodyMatches body v
  | [body, step] =>
    match parseDigits step with
    | some n => bodyMatches body v && (v - bodyStart k body) % n == 0
    | none => false
  | _ => false

/-- Does a whole field pattern match value `v` (any item matches). -/
def fieldMatches (k : CronFieldKind) (field : String) (v : Nat) : Bool :=
  (splitOnChar ',' field.data).any (fun it => itemMatches k it v)

/-- Does the parsed expression fire at second `t` (since the epoch). -/
def timeMatches (c : CronSpec) (t : Nat) : Bool :=
  let days := t / 86400
  let ymd := civilFromDays days
  fieldMatches .second c.second (t % 60) &&
  fieldMatches .minute c.minute (t / 60 % 60) &&
  fieldMatches .hour c.hour (t / 3600 % 24) &&
  fieldMatches .day c.day ymd.2.2 &&
  fieldMatches .month c.month ymd.2.1 &&
  fieldMatches .weekday c.weekday ((days + 4) % 7)

/-- Linear search for the first matching second at or after `t`, with fuel. -/
def searchNext (c : CronSpec) : Nat → Nat → Option Nat
  | 0, _ => none
  | fuel + 1, t => if timeMatches c t then some t else searchNext c fuel (t + 1)

/-- The bounded search horizon, in seconds (the spec requires the search for
the next fire time to stay within a bounded horizon). -/
def cronSearchHorizon : Nat := 189345600

/-- `cron_utils.get_next_run_time`: the least matching time strictly after
`base_time`, or `none` when the expression is invalid or no match exists
within the bounded horizon (src/services/cron/scheduler/cron_utils.py,
lines 31-55; croniter `get_next` modelled from the spec). -/
def get_next_run_time (cron_expression : String) (base_time : Nat) : Option Nat :=
  match parseCron cron_expression with
  | none => none
  | some c => searchNext c cronSearchHorizon (base_time + 1)

/-! ## cron_utils.sanitize_command -/

/-- The characters the source flags as dangerous. -/
def dangerousChars : List Char := [';', '&', '|', '`', '$', '(', ')', '<', '>']

/-- `cron_utils.sanitize_command` (lines 289-307): logs a warning for every
dangerous character present in the command and returns the command with
leading and trailing whitespace stripped; nothing is removed or rejected.
The returned pair is (warnings issued, returned command). -/
def sanitize_command (command : String) : List Char × String :=
  (dangerousChars.filter (fun c => command.data.contains c), pyStrip command)

/-! ## TaskExecutor._build_command -/

/-- Python values as they occur in a task's parameter map. -/
inductive PyValue where
  | pybool (b : Bool)
  | pyint (n : Int)
  | pystr (s : String)
  | pylist (xs : List PyValue)
  | pydict (kvs : List (String × PyValue))

/-- JSON string escaping as performed by `json.dumps` (the escapes the
modelled values can produce). -/
def jsonEscapeChar (c : Char) : List Char :=
  if c = '\\' then ['\\', '\\']
  else if c = '"' then ['\\', '"']
  else if c = '\n' then ['\\', 'n']
  else if c = '\t' then ['\\', 't']
  else if c = '\r' then ['\\', 'r']
  else [c]

/-- A JSON-quoted string literal. -/
def jsonQuote (s : String) : String :=
  String.mk ('"' :: s.data.foldr (fun c acc => jsonEscapeChar c ++ acc) ['"'])

mutual

/-- `json.dumps` with its default separators (", " and ": "). -/
def jsonDumps : PyValue → String
  | .pybool b => if b then "true" else "false"
  | .pyint n => toString n
  | .pystr s => jsonQuote s
  | .pylist xs => "[" ++ jsonDumpsItems xs ++ "]"
  | .pydict kvs => "\x7b" ++ jsonDumpsPairs kvs ++ "\x7d"

/-- Comma-separated serialization of list elements. -/
def jsonDumpsItems : List PyValue → String
  | [] => ""
  | [x] => jsonDumps x
  | x :: y :: rest => jsonDumps x ++ ", " ++ jsonDumpsItems (y :: rest)

/-- Comma-separated serialization of dict entries. -/
def jsonDumpsPairs : List (String × PyValue) → String
  | [] => ""
  | [(k, v)] => jsonQuote k ++ ": " ++ jsonDumps v
  | (k, v) :: p :: rest => jsonQuote k ++ ": " ++ jsonDumps v ++ ", " ++ jsonDumpsPairs (p :: rest)

end

/-- Python `str()` of a scalar parameter value, as used by the f-string
interpolation in `_build_command` (booleans and structured values are
dispatched before this case is reached). -/
def pyScalarStr : PyValue → String
  | .pybool b => if b then "True" else "False"
  | .pyint n => toString n
  | .pystr s => s
  | .pylist _ => ""
  | .pydict _ => ""

/-- One parameter's contribution to `param_parts` in
`TaskExecutor._build_command` (task_executor.py, lines 299-329): a bare
`--key` flag for a true boolean, nothing for a false boolean, the
single-quoted JSON serialization for a list or dict, and `--key=value`
for any other value. -/
def buildParamPart (key : String) (v : PyValue) : Option String :=
  match v with
  | .pybool b => if b then some ("--" ++ key) else none
  | .pylist xs => some ("--" ++ key ++ "=\x27" ++ jsonDumps (.pylist xs) ++ "\x27")
  | .pydict kvs => some ("--" ++ key ++ "=\x27" ++ jsonDumps (.pydict kvs) ++ "\x27")
  | _ => some ("--" ++ key ++ "=" ++ pyScalarStr v)

/-- The `param_parts` list accumulated by the loop in `_build_command`,
in map insertion order. -/
def paramParts : List (String × PyValue) → List String
  | [] => []
  | (k, v) :: rest =>
    match buildParamPart k v with
    | some p => p :: paramParts rest
    | none => paramParts rest

/-- Python `' '.join`. -/
def joinSpace : List String → String
  | [] => ""
  | [p] => p
  | p :: q :: rest => p ++ " " ++ joinSpace (q :: rest)

/-- `TaskExecutor._build_command` (task_executor.py, lines 299-329): appends
the parameter map as command-line flags to the base command; a `None` or
empty map, or a map producing no parts, leaves the command unchanged. -/
def _build_command (command : String) (parameters : Option (List (String × PyValue))) : String :=
  match parameters with
  | none => command
  | some ps =>
    if ps.isEmpty then command
    else
      let parts := paramParts ps
      if parts.isEmpty then command
      else command ++ " " ++ joinSpace parts

/-! ## TaskExecutor.execute (the retry loop)

The body of one attempt (`_execute_command`) spawns a subprocess; its
observable outcome per attempt is abstracted as an `AttemptOutcome` and the
loop of `execute` (task_executor.py, lines 80-146) is embedded over a
function giving the outcome of each attempt index. -/

/-- The outcome of one `_execute_command` call: the subprocess completed
with an exit code (and captured output), the wait timed out, or an
exception was raised while spawning/communicating. -/
inductive AttemptOutcome where
  | completed (exitCode : Int) (stdoutText stderrText : String) (durationMs : Nat)
  | timedOut
  | excepted (errorMsg : String)

/-- The result dictionary returned by `execute` (the keys the claims
inspect). -/
structure ExecResult where
  success : Bool
  exitCode : Int
  output : Option String
  error : Option String
deriving DecidableEq, Repr

/-- Did the attempt produce `result['success'] == True` (exit code 0). -/
def attemptSucceeds : AttemptOutcome → Bool
  | .completed ec _ _ _ => ec == 0
  | _ => false

/-- The result dictionary produced for an attempt's outcome: the
`_execute_command` result for a completed process, and the dictionaries
built in the `except` branches for a timeout or an exception. -/
def resultOfOutcome (timeoutSeconds : Nat) : AttemptOutcome → ExecResult
  | .completed ec out err _ =>
    { success := ec == 0, exitCode := ec, output := some out, error := some err }
  | .timedOut =>
    { success := false, exitCode := -1, output := none,
      error := some ("任务执行超时（" ++ toString timeoutSeconds ++ "秒）") }
  | .excepted m =>
    { success := false, exitCode := -1, output := none, error := some m }

/-- The retry loop of `TaskExecutor.execute` from attempt index `attempt`
with `remaining` loop iterations left.  Returns the result returned to the
caller, the total number of attempts performed, and the list of sleep
durations taken between attempts (each sleep is `retry_interval`, appended
before the next attempt, exactly as in the source).  The `remaining = 0`
case is the dead fall-through return after the loop. -/
def executeFrom (attempts : Nat → AttemptOutcome)
    (timeoutSeconds maxRetries retryInterval : Nat) :
    Nat → Nat → ExecResult × Nat × List Nat
  | 0, attempt =>
    ({ success := false, exitCode := -1, output := none, error := some "未知错误" },
      attempt, [])
  | remaining + 1, attempt =>
    let o := attempts attempt
    if attemptSucceeds o then
      (resultOfOutcome timeoutSeconds o, attempt + 1, [])
    else if attempt < maxRetries then
      match executeFrom attempts timeoutSeconds maxRetries retryInterval remaining (attempt + 1) with
      | (r, n, sleeps) => (r, n, retryInterval :: sleeps)
    else
      (resultOfOutcome timeoutSeconds o, attempt + 1, [])

/-- `TaskExecutor.execute` (task_executor.py, lines 38-146): run the
attempt loop `for attempt in range(max_retries + 1)`. -/
def execute (attempts : Nat → AttemptOutcome)
    (timeoutSeconds maxRetries retryInterval : Nat) : ExecResult × Nat × List Nat :=
  executeFrom attempts timeoutSeconds maxRetries retryInterval (maxRetries + 1) 0

/-! ## Binary64 arithmetic

Python's `/` on two ints produces an IEEE-754 binary64 double: the exact
quotient rounded to the nearest representable value, ties to even.  Every
finite double is an exact rational, so the stored double is modelled as
the rational it denotes, computed by explicit round-to-nearest-even over
the integer numerator and denominator.  The model covers the binary64
normal range; sub-normal underflow and overflow cannot occur for the
averages reachable here (milliseconds divided by a positive count). -/

/-- Structural floor-log2 with fuel (`natLog2Aux n n` suffices since the
argument halves at every step). -/
def natLog2Aux : Nat → Nat → Nat
  | 0, _ => 0
  | fuel + 1, n => if n ≤ 1 then 0 else natLog2Aux fuel (n / 2) + 1

/-- Floor of the base-2 logarithm (0 at 0). -/
def natLog2 (n : Nat) : Nat := natLog2Aux n n

/-- Is `2 ^ e ≤ n / d` for positive naturals `n`, `d`. -/
def pow2LeRat (e : Int) (n d : Nat) : Bool :=
  if 0 ≤ e then d * 2 ^ e.toNat ≤ n else d ≤ n * 2 ^ (-e).toNat

/-- Significand and exponent of the binary64 double nearest to `n / d`
(positive): returns `(m, e)` with the rounded value `m * 2 ^ (e - 52)`
and `2 ^ 52 ≤ m < 2 ^ 53`, rounding to nearest with ties to even. -/
def roundPosSig (n d : Nat) : Nat × Int :=
  let e0 : Int := (natLog2 n : Int) - (natLog2 d : Int)
  let e : Int := if pow2LeRat e0 n d then e0 else e0 - 1
  let s : Int := 52 - e
  let nn := if 0 ≤ s then n * 2 ^ s.toNat else n
  let dd := if 0 ≤ s then d else d * 2 ^ (-s).toNat
  let q := nn / dd
  let r := nn % dd
  let m := if 2 * r < dd then q
           else if dd < 2 * r then q + 1
           else if q % 2 = 0 then q else q + 1
  if m = 2 ^ 53 then (2 ^ 52, e + 1) else (m, e)

/-- The rational `m * 2 ^ e` for a natural significand `m`. -/
def mkDyadic (m : Nat) (e : Int) : ℚ :=
  if 0 ≤ e then mkRat (m * 2 ^ e.toNat) 1 else mkRat m (2 ^ (-e).toNat)

/-- The exact rational value of the binary64 double produced by Python's
`a / b` on naturals (0 when the numerator is 0; the denominator is
positive at every use, as the count is incremented before dividing). -/
def divDouble (a b : Nat) : ℚ :=
  if a = 0 then 0
  else if b = 0 then 0
  else
    let p := roundPosSig a b
    mkDyadic p.1 (p.2 - 52)

/-! ## TaskMonitor in-memory statistics -/

/-- One entry of `TaskMonitor.stats` (task_monitor.py, lines 29-43); the
`avg_duration_ms` field holds the exact rational value of the stored
binary64 double. -/
structure TaskStats where
  total_executions : Nat
  success_count : Nat
  error_count : Nat
  missed_count : Nat
  total_duration_ms : Nat
  avg_duration_ms : ℚ
  last_execution_time : Option Nat
  last_status : Option String

/-- The defaultdict initial entry: all counters zero. -/
def initTaskStats : TaskStats :=
  { total_executions := 0, success_count := 0, error_count := 0, missed_count := 0,
    total_duration_ms := 0, avg_duration_ms := 0,
    last_execution_time := none, last_status := none }

/-- `TaskMonitor._update_memory_stats` (task_monitor.py, lines 202-222).
The average is Python's float division of the two integer counters:
the binary64 double nearest to `total_duration_ms / total_executions`. -/
def _update_memory_stats (s : TaskStats) (success : Bool) (durationMs : Nat)
    (now : Nat) : TaskStats :=
  let total := s.total_executions + 1
  let sc := if success then s.success_count + 1 else s.success_count
  let ec := if success then s.error_count else s.error_count + 1
  let dur := s.total_duration_ms + durationMs
  { s with total_executions := total, success_count := sc, error_count := ec,
           total_duration_ms := dur,
           avg_duration_ms := divDouble dur total,
           last_execution_time := some now,
           last_status := some (if success then "success" else "error") }

/-- The stats mutation performed by `TaskMonitor.record_missed`
(task_monitor.py, lines 183-200): increment the task's missed counter. -/
def record_missed_stats (s : TaskStats) : TaskStats :=
  { s with missed_count := s.missed_count + 1 }

/-- The operations that mutate the in-memory stats map: `record_finish`
(through `_update_memory_stats`) and `record_missed`. -/
inductive MonitorOp where
  | finish (taskId : Nat) (success : Bool) (durationMs : Nat) (now : Nat)
  | missed (taskId : Nat)

/-- Apply one operation to the stats map (`defaultdict` semantics: every
task id has an entry, starting from `initTaskStats`). -/
def applyMonitorOp (m : Nat → TaskStats) : MonitorOp → Nat → TaskStats
  | .finish tid su d now =>
    fun k => if k = tid then _update_memory_stats (m tid) su d now else m k
  | .missed tid =>
    fun k => if k = tid then record_missed_stats (m tid) else m k

/-- Apply a sequence of operations, oldest first. -/
def applyMonitorOps (m : Nat → TaskStats) : List MonitorOp → Nat → TaskStats
  | [] => m
  | op :: rest => applyMonitorOps (applyMonitorOp m op) rest

/-- The monitor's stats map at initialization. -/
def initStatsMap : Nat → TaskStats := fun _ => initTaskStats

/-! ## CronSchedulerManager

The scheduler's observable state: the APScheduler job store, the
`task_registry` dict, the persisted `cron_tasks` table, and the running
flag.  A job id is generated in the source as
`f"cron_task_-task_id-_-uuid4().hex[:8]-"`; the fresh random suffix is
modelled as a nonce drawn from a counter that the state carries (every
stored job's nonce is below the counter, which is what uuid freshness
provides).  The stored callable and its argument tuple are carried in the
job for fidelity but never inspected by a trigger. -/

/-- The arguments `add_task` stores with the scheduled job. -/
structure JobArgs where
  command : String
  parameters : Option (List (String × PyValue))
  working_directory : Option String
  environment_vars : Option (List (String × String))
  timeout_seconds : Nat
  max_retries : Nat
  retry_interval : Nat

/-- An APScheduler job id: the task id it embeds plus the fresh suffix. -/
structure JobId where
  taskId : Nat
  nonce : Nat
deriving DecidableEq, Repr

/-- One job in the APScheduler job store. -/
structure Job where
  id : JobId
  name : String
  args : JobArgs
  paused : Bool

/-- The persisted status of a task definition
(src/models/cron/cron_task.py). -/
inductive TaskStatus where
  | enabled
  | disabled
  | running
  | error
deriving DecidableEq, Repr

/-- One row of the `cron_tasks` table (the columns the scheduler reads or
writes). -/
structure TaskRow where
  id : Nat
  name : String
  cron_expression : String
  command : String
  parameters : Option (List (String × PyValue))
  working_directory : Option String
  environment_vars : Option (List (String × String))
  timeout_seconds : Nat
  max_retries : Nat
  retry_interval : Nat
  timezone : String
  is_active : Bool
  deleted_at : Option Nat
  status : TaskStatus
  next_run_at : Option Nat

/-- The scheduler manager's state. -/
structure SchedulerState where
  jobs : List Job
  task_registry : List (Nat × JobId)
  uuidCounter : Nat
  db : List TaskRow
  is_running : Bool

/-- `task_registry.get(task_id)`. -/
def lookupTask : List (Nat × JobId) → Nat → Option JobId
  | [], _ => none
  | (k, v) :: rest, tid => if k = tid then some v else lookupTask rest tid

/-- Dict insertion: overwrite the entry for the key, or append a new one. -/
def insertReg : List (Nat × JobId) → Nat → JobId → List (Nat × JobId)
  | [], k, v => [(k, v)]
  | (k', v') :: rest, k, v =>
    if k' = k then (k, v) :: rest else (k', v') :: insertReg rest k v

/-- `del task_registry[task_id]`. -/
def eraseReg (reg : List (Nat × JobId)) (tid : Nat) : List (Nat × JobId) :=
  reg.filter (fun p => p.1 ≠ tid)

/-- `scheduler.add_job(..., id=job_id, replace_existing=True)`: replace the
job with the same id when one exists, otherwise add the job. -/
def addJobReplace (jobs : List Job) (j : Job) : List Job :=
  if jobs.any (fun j' => j'.id = j.id) then
    jobs.map (fun j' => if j'.id = j.id then j else j')
  else jobs ++ [j]

/-- `UPDATE cron_tasks SET next_run_at = ... WHERE id = ...`. -/
def updateNextRunAt (db : List TaskRow) (tid : Nat) (t : Nat) : List TaskRow :=
  db.map (fun r => if r.id = tid then { r with next_run_at := some t } else r)

/-- `CronSchedulerManager._get_next_run_time` (scheduler_manager.py, lines
625-641): the croniter next fire time from now, falling back to one hour
from now when the computation fails. -/
def _get_next_run_time (cron_expression : String) (now : Nat) : Nat :=
  match get_next_run_time cron_expression now with
  | some t => t
  | none => now + 3600

/-- `CronSchedulerManager.add_task` (scheduler_manager.py, lines 237-326).
Validates the cron expression (raising, modelled as `Except.error`, when
invalid), builds the trigger from the stripped and split expression,
registers the job under a fresh job id with `replace_existing=True`,
records the task in `task_registry`, and persists the computed next run
time.  The returned state is the state after the call: on every error path
the raise happens before any mutation, so the original state is returned. -/
def add_task (st : SchedulerState) (now : Nat) (task_id : Nat)
    (task_name cron_expression : String) (args : JobArgs) (timezone : String) :
    Except String JobId × SchedulerState :=
  if !validate_cron_expression cron_expression then
    (Except.error ("无效的 Cron 表达式: " ++ cron_expression), st)
  else
    let jobId : JobId := ⟨task_id, st.uuidCounter⟩
    let cron_parts := splitWs (pyStrip cron_expression)
    if cron_parts.length = 6 ∨ cron_parts.length = 5 then
      let jobs' := addJobReplace st.jobs ⟨jobId, task_name, args, false⟩
      let reg' := insertReg st.task_registry task_id jobId
      let nrt := _get_next_run_time cron_expression now
      let db' := updateNextRunAt st.db task_id nrt
      (Except.ok jobId,
        { st with jobs := jobs', task_registry := reg',
                  uuidCounter := st.uuidCounter + 1, db := db' })
    else
      (Except.error ("Cron 表达式格式错误，应为5位或6位: " ++ cron_expression), st)

/-- `CronSchedulerManager.remove_task` (scheduler_manager.py, lines
328-355): a missing registry entry returns `False`; `scheduler.remove_job`
raising (the registered job id is not in the store) is caught and returns
`False` with nothing modified; otherwise the job and the registry entry are
removed and the call returns `True`. -/
def remove_task (st : SchedulerState) (task_id : Nat) : Bool × SchedulerState :=
  match lookupTask st.task_registry task_id with
  | none => (false, st)
  | some jid =>
    if st.jobs.any (fun j => j.id = jid) then
      (true, { st with jobs := st.jobs.filter (fun j => j.id ≠ jid),
                       task_registry := eraseReg st.task_registry task_id })
    else (false, st)

/-- `CronSchedulerManager.pause_task` (scheduler_manager.py, lines
357-379): a missing registry entry, or `scheduler.pause_job` raising,
returns `False` without modification; otherwise the job is paused. -/
def pause_task (st : SchedulerState) (task_id : Nat) : Bool × SchedulerState :=
  match lookupTask st.task_registry task_id with
  | none => (false, st)
  | some jid =>
    if st.jobs.any (fun j => j.id = jid) then
      (true, { st with jobs := st.jobs.map (fun j => if j.id = jid then { j with paused := true } else j) })
    else (false, st)

/-- `CronSchedulerManager.resume_task` (scheduler_manager.py, lines
381-403): symmetric to `pause_task`. -/
def resume_task (st : SchedulerState) (task_id : Nat) : Bool × SchedulerState :=
  match lookupTask st.task_registry task_id with
  | none => (false, st)
  | some jid =>
    if st.jobs.any (fun j => j.id = jid) then
      (true, { st with jobs := st.jobs.map (fun j => if j.id = jid then { j with paused := false } else j) })
    else (false, st)

/-- The `JobArgs` record `_load_tasks_from_db` passes to `add_task` for a
fetched row. -/
def rowArgs (r : TaskRow) : JobArgs :=
  { command := r.command, parameters := r.parameters,
    working_directory := r.working_directory,
    environment_vars := r.environment_vars,
    timeout_seconds := r.timeout_seconds, max_retries := r.max_retries,
    retry_interval := r.retry_interval }

/-- The loop of `_load_tasks_from_db` over the fetched rows: each row is
added with `add_task`; a failing row is logged and skipped. -/
def loadRows (now : Nat) : SchedulerState → List TaskRow → SchedulerState
  | st, [] => st
  | st, r :: rest =>
    let (res, st') := add_task st now r.id r.name r.cron_expression (rowArgs r)
      (if r.timezone = "" then "Asia/Shanghai" else r.timezone)
    match res with
    | Except.ok _ => loadRows now st' rest
    | Except.error _ => loadRows now st' rest

/-- `CronSchedulerManager._load_tasks_from_db` (scheduler_manager.py, lines
189-235): fetch every row with `is_active = 1 AND deleted_at IS NULL` and
add each to the scheduler. -/
def _load_tasks_from_db (st : SchedulerState) (now : Nat) : SchedulerState :=
  loadRows now st (st.db.filter (fun r => r.is_active && r.deleted_at.isNone))

/-- `CronSchedulerManager.start` (scheduler_manager.py, lines 134-151):
return unchanged when already running; otherwise start the dispatch loop
and load the active tasks from the database. -/
def start (st : SchedulerState) (now : Nat) : SchedulerState :=
  if st.is_running then st
  else _load_tasks_from_db { st with is_running := true } now

/-- The scheduler jobs whose job id embeds the given task id: the live
timers for that task. -/
def jobsForTask (st : SchedulerState) (tid : Nat) : List Job :=
  st.jobs.filter (fun j => j.id.taskId = tid)

/-- The scheduler state of a freshly constructed manager with the given
task table. -/
def initState (db : List TaskRow) : SchedulerState :=
  { jobs := [], task_registry := [], uuidCounter := 0, db := db, is_running := false }

/-- Well-formedness of a scheduler state: every stored job's nonce is below
the uuid counter (freshness of future job ids), and every registry entry
points, under its own task id, at a job present in the store. -/
def SchedWF (st : SchedulerState) : Prop :=
  (∀ j ∈ st.jobs, j.id.nonce < st.uuidCounter) ∧
  (∀ p ∈ st.task_registry, p.2.taskId = p.1 ∧ ∃ j ∈ st.jobs, j.id = p.2)

/-- Default `JobArgs` used by concrete test states. -/
def defaultArgs : JobArgs :=
  { command := "echo", parameters := none, working_directory := none,
    environment_vars := none, timeout_seconds := 300, max_retries := 3,
    retry_interval := 60 }

/-! ## Helper lemmas -/

theorem mem_dropWhile_of_mem {p : Char → Bool} {c : Char} :
    ∀ {l : List Char}, c ∈ l → p c = false → c ∈ l.dropWhile p := by
  intro l
  induction l with
  | nil => intro h; cases h
  | cons a t ih =>
    intro hmem hpc
    by_cases hpa : p a = true
    · rw [List.dropWhile_cons_of_pos hpa]
      rcases List.mem_cons.mp hmem with rfl | ht
      · rw [hpc] at hpa; cases hpa
      · exact ih ht hpc
    · rw [List.dropWhile_cons_of_neg hpa]
      exact hmem

theorem mem_pyStripChars {c : Char} {l : List Char} (hmem : c ∈ l)
    (hws : isPyWs c = false) : c ∈ pyStripChars l := by
  unfold pyStripChars
  rw [List.mem_reverse]
  exact mem_dropWhile_of_mem (List.mem_reverse.mpr (mem_dropWhile_of_mem hmem hws)) hws

/-- C9: `sanitize_command` returns the input with leading and trailing
whitespace stripped and nothing else: a dangerous character such as `;`,
`&`, `|` or a backtick only produces a warning, and the returned command
still contains every dangerous character the input contained. -/
theorem sanitize_command_spec (command : String) :
    (sanitize_command command).2 = pyStrip command ∧
    ∀ c, c ∈ dangerousChars → c ∈ command.data →
      c ∈ (sanitize_command command).2.data ∧ c ∈ (sanitize_command command).1 := by
  refine ⟨rfl, fun c hc hmem => ⟨?_, ?_⟩⟩
  · show c ∈ (pyStrip command).data
    have hws : isPyWs c = false := by
      simp only [dangerousChars, List.mem_cons, List.not_mem_nil, or_false] at hc
      rcases hc with rfl | rfl | rfl | rfl | rfl | rfl | rfl | rfl | rfl <;> rfl
    exact mem_pyStripChars hmem hws
  · show c ∈ dangerousChars.filter _
    rw [List.mem_filter]
    exact ⟨hc, by simpa [List.contains] using List.elem_eq_true_of_mem hmem⟩

/-- Witness for C9 at a concrete command containing `;`. -/
theorem sanitize_command_spec_witness :
    (sanitize_command "  echo hi; rm x  ").2 = "echo hi; rm x" ∧
    ';' ∈ (sanitize_command "  echo hi; rm x  ").2.data := by
  have h := sanitize_command_spec "  echo hi; rm x  "
  exact ⟨h.1.trans (by decide), (h.2 ';' (by decide) (by decide)).1⟩

/-! ## C10: the monitor's per-task statistics invariant -/

/-- The invariant that holds of one stats entry: the integer counters are
consistent, and the stored average is the binary64 correctly-rounded value
of the exact quotient `total_duration_ms / total_executions`. -/
def statsInvariant (s : TaskStats) : Prop :=
  s.total_executions = s.success_count + s.error_count ∧
  s.avg_duration_ms = divDouble s.total_duration_ms s.total_executions

theorem statsInvariant_init : statsInvariant initTaskStats :=
  ⟨rfl, by decide⟩

theorem statsInvariant_update (s : TaskStats) (success : Bool) (d now : Nat)
    (h : statsInvariant s) :
    statsInvariant (_update_memory_stats s success d now) := by
  obtain ⟨h1, _⟩ := h
  unfold _update_memory_stats statsInvariant
  constructor
  · cases success <;> simp [h1] <;> omega
  · rfl

theorem statsInvariant_missed (s : TaskStats) (h : statsInvariant s) :
    statsInvariant (record_missed_stats s) := by
  obtain ⟨h1, h2⟩ := h
  exact ⟨h1, h2⟩

theorem applyMonitorOps_invariant (ops : List MonitorOp) :
    ∀ m : Nat → TaskStats, (∀ k, statsInvariant (m k)) →
      ∀ k, statsInvariant (applyMonitorOps m ops k) := by
  induction ops with
  | nil => intro m hm k; exact hm k
  | cons op rest ih =>
    intro m hm k
    refine ih (applyMonitorOp m op) (fun k' => ?_) k
    cases op with
    | finish tid su d now =>
      show statsInvariant (if k' = tid then _update_memory_stats (m tid) su d now else m k')
      by_cases hk : k' = tid
      · rw [if_pos hk]; exact statsInvariant_update _ su d now (hm tid)
      · rw [if_neg hk]; exact hm k'
    | missed tid =>
      show statsInvariant (if k' = tid then record_missed_stats (m tid) else m k')
      by_cases hk : k' = tid
      · rw [if_pos hk]; exact statsInvariant_missed _ (hm tid)
      · rw [if_neg hk]; exact hm k'

/-- C10 (amended): after every sequence of `record_finish` /
`record_missed` operations on the in-memory stats map, every task's entry
satisfies `total_executions = success_count + error_count` exactly, and
`avg_duration_ms` is the binary64 correctly-rounded value of the exact
quotient `total_duration_ms / total_executions` — the exact product
identity `avg_duration_ms * total_executions = total_duration_ms` holds
only up to that rounding (see the counterexample). -/
theorem monitor_stats_invariant (ops : List MonitorOp) (tid : Nat) :
    statsInvariant (applyMonitorOps initStatsMap ops tid) :=
  applyMonitorOps_invariant ops initStatsMap (fun _ => statsInvariant_init) tid

/-- A reachable operation sequence for task 1: 48 finished executions of
duration 0 ms and one of duration 1 ms. -/
def statsCexOps : List MonitorOp :=
  List.replicate 48 (MonitorOp.finish 1 true 0 0) ++ [MonitorOp.finish 1 true 1 0]

/-- C10 counterexample: after 49 recorded executions totalling 1 ms, the
stored average is the binary64 rounding of 1/49, a dyadic rational
different from 1/49 itself, so `avg_duration_ms * total_executions`
does not equal `total_duration_ms` exactly — the claim's identity fails
under the IEEE-754 double division the source performs. -/
theorem monitor_stats_exact_avg_fails :
    (applyMonitorOps initStatsMap statsCexOps 1).total_executions = 49 ∧
    (applyMonitorOps initStatsMap statsCexOps 1).total_duration_ms = 1 ∧
    (applyMonitorOps initStatsMap statsCexOps 1).avg_duration_ms =
      mkRat 5882252574524729 288230376151711744 ∧
    ¬((applyMonitorOps initStatsMap statsCexOps 1).avg_duration_ms *
        ((applyMonitorOps initStatsMap statsCexOps 1).total_executions : ℚ) =
      ((applyMonitorOps initStatsMap statsCexOps 1).total_duration_ms : ℚ)) := by
  have h49 : (applyMonitorOps initStatsMap statsCexOps 1).total_executions = 49 := by
    decide
  have h1 : (applyMonitorOps initStatsMap statsCexOps 1).total_duration_ms = 1 := by
    decide
  have hval : (applyMonitorOps initStatsMap statsCexOps 1).avg_duration_ms =
      mkRat 5882252574524729 288230376151711744 := by decide
  have hne : (applyMonitorOps initStatsMap statsCexOps 1).avg_duration_ms ≠
      mkRat 1 49 := by decide
  refine ⟨h49, h1, hval, ?_⟩
  rw [h49, h1]
  intro h
  apply hne
  rw [Rat.mkRat_eq_div]
  push_cast
  rw [eq_div_iff (by norm_num : (49 : ℚ) ≠ 0)]
  exact_mod_cast h

/-! ## C8: command building -/

/-- The flag one parameter contributes, as the claim words it: a bare
`--key` for a true boolean (nothing for a false one), the single-quoted
JSON serialization after `--key=` for a list or dict, and `--key=value`
for a scalar. -/
def specToken (key : String) (v : PyValue) : Option String :=
  match v with
  | .pybool b => if b then some ("--" ++ key) else none
  | .pylist xs => some ("--" ++ key ++ "=\x27" ++ jsonDumps (.pylist xs) ++ "\x27")
  | .pydict kvs => some ("--" ++ key ++ "=\x27" ++ jsonDumps (.pydict kvs) ++ "\x27")
  | _ => some ("--" ++ key ++ "=" ++ pyScalarStr v)

/-- The claim's description of the built command: the base command with
each parameter's flag appended in map order, separated by single spaces. -/
def specAppendParams (command : String) : List (String × PyValue) → String
  | [] => command
  | (k, v) :: rest =>
    match specToken k v with
    | some tok => specAppendParams (command ++ (" " ++ tok)) rest
    | none => specAppendParams command rest

theorem buildParamPart_eq_specToken (k : String) (v : PyValue) :
    buildParamPart k v = specToken k v := by
  cases v <;> rfl

theorem specAppendParams_eq_joined (ps : List (String × PyValue)) :
    ∀ command, specAppendParams command ps =
      (if (paramParts ps).isEmpty then command
       else command ++ " " ++ joinSpace (paramParts ps)) := by
  induction ps with
  | nil => intro command; rfl
  | cons p rest ih =>
    intro command
    obtain ⟨k, v⟩ := p
    show (match specToken k v with
          | some tok => specAppendParams (command ++ (" " ++ tok)) rest
          | none => specAppendParams command rest) = _
    rw [show paramParts ((k, v) :: rest) =
          (match buildParamPart k v with
           | some p => p :: paramParts rest
           | none => paramParts rest) from rfl,
        buildParamPart_eq_specToken]
    cases htok : specToken k v with
    | none => simpa using ih command
    | some tok =>
      simp only [ih (command ++ (" " ++ tok)), List.isEmpty_cons]
      cases hrest : paramParts rest with
      | nil => simp [joinSpace, String.append_assoc]
      | cons q more =>
        simp [joinSpace, String.append_assoc]

/-- C8: `_build_command` returns the base command with, appended in map
order: a bare `--key` flag for each true boolean (nothing for a false
boolean), `--key=value` for each scalar, and `--key=` followed by the
single-quoted JSON serialization for each list or dict; with an absent or
empty parameter map the base command is returned unchanged. -/
theorem build_command_spec (command : String) (ps : List (String × PyValue)) :
    _build_command command none = command ∧
    _build_command command (some []) = command ∧
    _build_command command (some ps) = specAppendParams command ps := by
  refine ⟨rfl, rfl, ?_⟩
  show _build_command command (some ps) = _
  rw [specAppendParams_eq_joined]
  cases hps : ps with
  | nil => rfl
  | cons p rest =>
    show (if (paramParts (p :: rest)).isEmpty then command
          else command ++ " " ++ joinSpace (paramParts (p :: rest))) = _
    rfl

/-! ## C5: validation accepts exactly well-formed 5- and 6-field expressions -/

/-- C5: `validate_cron_expression` returns true exactly when the expression
splits into 5 fields (`min hour day month weekday`) or 6 fields
(`sec min hour day month weekday`) that are each syntactically valid for
their position; any other field count, or any invalid field, yields false. -/
theorem validate_cron_expression_spec (s : String) :
    validate_cron_expression s = true ↔
      ((splitWs s).length = 5 ∨ (splitWs s).length = 6) ∧
        List.Forall₂ (fun k f => fieldValid k f = true)
          (cronKindsFor (splitWs s).length) (splitWs s) := by
  unfold validate_cron_expression croniterAccepts parseCron
  rcases h : splitWs s with _ | ⟨f1, _ | ⟨f2, _ | ⟨f3, _ | ⟨f4, _ | ⟨f5, _ | ⟨f6, _ | ⟨f7, rest⟩⟩⟩⟩⟩⟩⟩ <;>
    simp [cronKindsFor, Bool.and_eq_true, and_assoc]

/-! ## C3: the executor's retry loop -/

theorem resultOfOutcome_success (timeoutSeconds : Nat) (o : AttemptOutcome) :
    (resultOfOutcome timeoutSeconds o).success = attemptSucceeds o := by
  cases o <;> rfl

theorem executeFrom_all_fail (attempts : Nat → AttemptOutcome)
    (timeoutSeconds maxRetries retryInterval : Nat)
    (hfail : ∀ i, i ≤ maxRetries → attemptSucceeds (attempts i) = false) :
    ∀ k a, a + k = maxRetries →
      executeFrom attempts timeoutSeconds maxRetries retryInterval (k + 1) a =
        (resultOfOutcome timeoutSeconds (attempts maxRetries), maxRetries + 1,
          List.replicate k retryInterval) := by
  intro k
  induction k with
  | zero =>
    intro a ha
    subst ha
    simp only [Nat.add_zero] at *
    show (if attemptSucceeds (attempts a) = true then _
          else if a < a then _ else _) = _
    rw [if_neg (by simp [hfail a le_rfl]), if_neg (lt_irrefl a)]
    rfl
  | succ k ih =>
    intro a ha
    have halt : a < maxRetries := by omega
    show (if attemptSucceeds (attempts a) = true then _
          else if a < maxRetries then _ else _) = _
    rw [if_neg (by simp [hfail a (by omega)]), if_pos halt,
        ih (a + 1) (by omega)]
    rfl

theorem executeFrom_first_success (attempts : Nat → AttemptOutcome)
    (timeoutSeconds maxRetries retryInterval j : Nat)
    (hj : j ≤ maxRetries)
    (hsucc : attemptSucceeds (attempts j) = true)
    (hbefore : ∀ i, i < j → attemptSucceeds (attempts i) = false) :
    ∀ k a, a + k = maxRetries → a ≤ j →
      executeFrom attempts timeoutSeconds maxRetries retryInterval (k + 1) a =
        (resultOfOutcome timeoutSeconds (attempts j), j + 1,
          List.replicate (j - a) retryInterval) := by
  intro k
  induction k with
  | zero =>
    intro a ha haj
    have : a = j := by omega
    subst this
    show (if attemptSucceeds (attempts a) = true then _
          else if a < maxRetries then _ else _) = _
    rw [if_pos hsucc]
    simp
  | succ k ih =>
    intro a ha haj
    by_cases hje : a = j
    · subst hje
      show (if attemptSucceeds (attempts a) = true then _
            else if a < maxRetries then _ else _) = _
      rw [if_pos hsucc]
      simp
    · have haltj : a < j := by omega
      show (if attemptSucceeds (attempts a) = true then _
            else if a < maxRetries then _ else _) = _
      rw [if_neg (by simp [hbefore a haltj]), if_pos (by omega),
          ih (a + 1) (by omega) (by omega)]
      have : j - a = (j - (a + 1)) + 1 := by omega
      rw [this, List.replicate_succ]

/-- C3: with `max_retries = N`, a command failing on every attempt makes
`execute` perform exactly `N + 1` attempts with a fixed sleep of
`retry_interval` between consecutive attempts and return the final
attempt's result, whose `success` flag is false; and a first successful
attempt at index `j` returns immediately after `j + 1` attempts. -/
theorem execute_retry_spec (attempts : Nat → AttemptOutcome)
    (timeoutSeconds maxRetries retryInterval : Nat) :
    ((∀ i, i ≤ maxRetries → attemptSucceeds (attempts i) = false) →
      execute attempts timeoutSeconds maxRetries retryInterval =
        (resultOfOutcome timeoutSeconds (attempts maxRetries), maxRetries + 1,
          List.replicate maxRetries retryInterval) ∧
      (resultOfOutcome timeoutSeconds (attempts maxRetries)).success = false) ∧
    (∀ j, j ≤ maxRetries → attemptSucceeds (attempts j) = true →
      (∀ i, i < j → attemptSucceeds (attempts i) = false) →
      execute attempts timeoutSeconds maxRetries retryInterval =
        (resultOfOutcome timeoutSeconds (attempts j), j + 1,
          List.replicate j retryInterval)) := by
  constructor
  · intro hfail
    refine ⟨executeFrom_all_fail attempts timeoutSeconds maxRetries retryInterval hfail
      maxRetries 0 (by omega), ?_⟩
    rw [resultOfOutcome_success]
    exact hfail maxRetries le_rfl
  · intro j hj hsucc hbefore
    have h := executeFrom_first_success attempts timeoutSeconds maxRetries retryInterval
      j hj hsucc hbefore maxRetries 0 (by omega) (by omega)
    simpa using h

/-- Witness for C3: three always-timing-out attempts with
`max_retries = 2`, and a run whose second attempt exits 0. -/
theorem execute_retry_spec_witness :
    execute (fun _ => AttemptOutcome.timedOut) 1 2 7 =
      ({ success := false, exitCode := -1, output := none,
         error := some "任务执行超时（1秒）" }, 3, [7, 7]) ∧
    execute (fun i => if i = 1 then AttemptOutcome.completed 0 "ok" "" 5
        else AttemptOutcome.timedOut) 1 2 7 =
      ({ success := true, exitCode := 0, output := some "ok",
         error := some "" }, 2, [7]) := by
  have h1 := (execute_retry_spec (fun _ => AttemptOutcome.timedOut) 1 2 7).1
    (by intro i _; rfl)
  have h2 := (execute_retry_spec
      (fun i => if i = 1 then AttemptOutcome.completed 0 "ok" "" 5
        else AttemptOutcome.timedOut) 1 2 7).2 1 (by omega) (by decide)
    (by intro i hi; have : i = 0 := by omega
        subst this; rfl)
  exact ⟨h1.1.trans (by decide), h2.trans (by decide)⟩

/-! ## C7: benign not-found results -/

theorem lookupTask_eraseReg (reg : List (Nat × JobId)) (tid : Nat) :
    lookupTask (eraseReg reg tid) tid = none := by
  induction reg with
  | nil => rfl
  | cons p rest ih =>
    by_cases hp : p.1 = tid
    · simpa [eraseReg, List.filter_cons, hp] using ih
    · simpa [eraseReg, List.filter_cons, hp, lookupTask] using ih

theorem lookupTask_mem {reg : List (Nat × JobId)} {tid : Nat} {jid : JobId}
    (h : lookupTask reg tid = some jid) : (tid, jid) ∈ reg := by
  induction reg with
  | nil => cases h
  | cons p rest ih =>
    obtain ⟨k, v⟩ := p
    by_cases hk : k = tid
    · subst hk
      rw [lookupTask, if_pos rfl] at h
      cases h
      exact List.mem_cons_self _ _
    · simp only [lookupTask, if_neg hk] at h
      exact List.mem_cons_of_mem _ (ih h)

/-- C7: `remove_task`, `pause_task` and `resume_task` on a task id with no
live registration each return false with the state unchanged (a benign
not-found result, no exception); and `remove_task` returns true only when
a registration existed, in which case the registry entry and the
registered job are discarded. -/
theorem task_ops_not_found (st : SchedulerState) (tid : Nat) :
    (lookupTask st.task_registry tid = none →
      remove_task st tid = (false, st) ∧ pause_task st tid = (false, st) ∧
        resume_task st tid = (false, st)) ∧
    ((remove_task st tid).1 = true →
      ∃ jid, lookupTask st.task_registry tid = some jid ∧
        lookupTask (remove_task st tid).2.task_registry tid = none ∧
        (remove_task st tid).2.jobs = st.jobs.filter (fun j => j.id ≠ jid)) := by
  constructor
  · intro h
    refine ⟨?_, ?_, ?_⟩ <;> simp [remove_task, pause_task, resume_task, h]
  · intro htrue
    cases hl : lookupTask st.task_registry tid with
    | none => rw [remove_task, hl] at htrue; cases htrue
    | some jid =>
      simp only [remove_task, hl] at htrue
      by_cases hany : (st.jobs.any fun j => j.id = jid) = true
      · refine ⟨jid, rfl, ?_, ?_⟩
        · simp only [remove_task, hl, hany, if_true]
          exact lookupTask_eraseReg st.task_registry tid
        · simp only [remove_task, hl, hany, if_true]
      · rw [if_neg hany] at htrue
        cases htrue

/-- A concrete registered state used by witnesses: one job for task 1. -/
def stOneJob : SchedulerState :=
  { jobs := [{ id := ⟨1, 0⟩, name := "t", args := defaultArgs, paused := false }],
    task_registry := [(1, ⟨1, 0⟩)], uuidCounter := 1, db := [],
    is_running := true }

/-- Witness for C7: the three operations at an empty scheduler, and a
successful removal at a registered state. -/
theorem task_ops_not_found_witness :
    (remove_task (initState []) 1 = (false, initState []) ∧
      pause_task (initState []) 1 = (false, initState []) ∧
      resume_task (initState []) 1 = (false, initState [])) ∧
    (∃ jid, lookupTask stOneJob.task_registry 1 = some jid ∧
      lookupTask (remove_task stOneJob 1).2.task_registry 1 = none ∧
      (remove_task stOneJob 1).2.jobs = stOneJob.jobs.filter (fun j => j.id ≠ jid)) :=
  ⟨(task_ops_not_found (initState []) 1).1 rfl,
   (task_ops_not_found stOneJob 1).2 rfl⟩

/-! ## C4: invalid cron expressions are rejected before any registration -/

/-- C4: `add_task` with a cron expression failing validation raises the
validation error (before any timer is registered) and returns the state
unchanged: no registry entry, no scheduler job and no database write is
made by the call. -/
theorem add_task_invalid_cron_rejected (st : SchedulerState) (now task_id : Nat)
    (task_name cron_expression : String) (args : JobArgs) (timezone : String)
    (h : validate_cron_expression cron_expression = false) :
    add_task st now task_id task_name cron_expression args timezone =
      (Except.error ("无效的 Cron 表达式: " ++ cron_expression), st) := by
  rw [add_task, h]
  rfl

/-- Witness for C4 at the invalid expression `"61 * * * *"`. -/
theorem add_task_invalid_cron_rejected_witness :
    add_task (initState []) 0 1 "t" "61 * * * *" defaultArgs "Asia/Shanghai" =
      (Except.error ("无效的 Cron 表达式: " ++ "61 * * * *"), initState []) :=
  add_task_invalid_cron_rejected (initState []) 0 1 "t" "61 * * * *"
    defaultArgs "Asia/Shanghai" (by decide)

/-! ## C1: startup does not reconcile `running` statuses -/

theorem updateNextRunAt_idStatus (db : List TaskRow) (tid t : Nat) :
    (updateNextRunAt db tid t).map (fun r => (r.id, r.status)) =
      db.map (fun r => (r.id, r.status)) := by
  induction db with
  | nil => rfl
  | cons r rest ih =>
    by_cases hr : r.id = tid <;>
      simp [updateNextRunAt, hr, List.map_cons] at ih ⊢ <;>
      exact ih

theorem add_task_idStatus (st : SchedulerState) (now task_id : Nat)
    (task_name cron_expression : String) (args : JobArgs) (timezone : String) :
    ((add_task st now task_id task_name cron_expression args timezone).2).db.map
        (fun r => (r.id, r.status)) =
      st.db.map (fun r => (r.id, r.status)) := by
  rw [add_task]
  by_cases hv : validate_cron_expression cron_expression
  · rw [if_neg (by simp [hv])]
    by_cases hp : (splitWs (pyStrip cron_expression)).length = 6 ∨
        (splitWs (pyStrip cron_expression)).length = 5
    · rw [if_pos hp]
      exact updateNextRunAt_idStatus st.db task_id _
    · rw [if_neg hp]
  · rw [if_pos (by simp [Bool.not_eq_true] at hv ⊢; exact hv)]

theorem loadRows_idStatus (now : Nat) :
    ∀ (rows : List TaskRow) (st : SchedulerState),
      (loadRows now st rows).db.map (fun r => (r.id, r.status)) =
        st.db.map (fun r => (r.id, r.status)) := by
  intro rows
  induction rows with
  | nil => intro st; rfl
  | cons r rest ih =>
    intro st
    rw [loadRows]
    rcases hadd : add_task st now r.id r.name r.cron_expression (rowArgs r)
        (if r.timezone = "" then "Asia/Shanghai" else r.timezone) with ⟨res, st'⟩
    have hst' : st'.db.map (fun r => (r.id, r.status)) =
        st.db.map (fun r => (r.id, r.status)) := by
      have := add_task_idStatus st now r.id r.name r.cron_expression (rowArgs r)
        (if r.timezone = "" then "Asia/Shanghai" else r.timezone)
      rw [hadd] at this
      exact this
    cases res <;> simp only [] <;> rw [ih st', hst']

/-- C1 (amended): `start()` registers jobs for the active, non-deleted
definitions but never writes the `status` column: every definition's
persisted status — in particular a `running` left over from a crash — is
exactly what it was before the call. -/
theorem start_preserves_statuses (st : SchedulerState) (now : Nat) :
    (start st now).db.map (fun r => (r.id, r.status)) =
      st.db.map (fun r => (r.id, r.status)) := by
  rw [start]
  by_cases hr : st.is_running
  · rw [if_pos hr]
  · rw [if_neg hr]
    exact loadRows_idStatus now _ _

/-- An active, non-deleted task definition persisted with status
`running`, as left behind by a crash. -/
def stuckRunningRow : TaskRow :=
  { id := 1, name := "t", cron_expression := "* * * * *", command := "echo",
    parameters := none, working_directory := none, environment_vars := none,
    timeout_seconds := 300, max_retries := 3, retry_interval := 60,
    timezone := "Asia/Shanghai", is_active := true, deleted_at := none,
    status := TaskStatus.running, next_run_at := none }

/-- C1 counterexample: starting the scheduler over a database holding one
active, non-deleted definition stuck in status `running` leaves that
definition in status `running` — `start()` performs no reset to
`enabled`, contradicting the claim that after the load no active,
non-deleted definition remains in status `running`. -/
theorem start_leaves_running_status :
    stuckRunningRow.is_active = true ∧ stuckRunningRow.deleted_at = none ∧
    stuckRunningRow.status = TaskStatus.running ∧
    (start (initState [stuckRunningRow]) 0).db.map TaskRow.status =
      [TaskStatus.running] ∧
    TaskStatus.running ≠ TaskStatus.enabled :=
  ⟨rfl, rfl, rfl, by decide, by decide⟩

/-! ## C2: live timers per task id -/

theorem splitWsAux_all_ws :
    ∀ t : List Char, (∀ c ∈ t, isPyWs c = true) →
      ∀ acc : List Char,
        splitWsAux acc t = if acc.isEmpty then [] else [acc.reverse] := by
  intro t
  induction t with
  | nil => intro _ acc; rfl
  | cons c t' ih =>
    intro ht acc
    have hc : isPyWs c = true := ht c (List.mem_cons_self _ _)
    have ht' : ∀ x ∈ t', isPyWs x = true := fun x hx => ht x (List.mem_cons_of_mem _ hx)
    show (if isPyWs c = true then
            if acc.isEmpty = true then splitWsAux [] t' else acc.reverse :: splitWsAux [] t'
          else splitWsAux (c :: acc) t') = _
    rw [if_pos hc, ih ht' []]
    by_cases ha : acc.isEmpty = true <;> simp [ha]

theorem splitWsAux_append_ws :
    ∀ t : List Char, (∀ c ∈ t, isPyWs c = true) →
      ∀ (l acc : List Char), splitWsAux acc (l ++ t) = splitWsAux acc l := by
  intro t ht l
  induction l with
  | nil =>
    intro acc
    rw [List.nil_append, splitWsAux_all_ws t ht acc]
    rfl
  | cons c l' ih =>
    intro acc
    show (if isPyWs c = true then
            if acc.isEmpty = true then splitWsAux [] (l' ++ t)
            else acc.reverse :: splitWsAux [] (l' ++ t)
          else splitWsAux (c :: acc) (l' ++ t)) =
         (if isPyWs c = true then
            if acc.isEmpty = true then splitWsAux [] l'
            else acc.reverse :: splitWsAux [] l'
          else splitWsAux (c :: acc) l')
    rw [ih [], ih (c :: acc)]

theorem splitWsAux_dropWhile (l : List Char) :
    splitWsAux [] (l.dropWhile isPyWs) = splitWsAux [] l := by
  induction l with
  | nil => rfl
  | cons c l' ih =>
    by_cases hc : isPyWs c = true
    · rw [List.dropWhile_cons_of_pos hc, ih]
      have : splitWsAux [] (c :: l') = splitWsAux [] l' := by
        show (if isPyWs c = true then
                if (List.nil : List Char).isEmpty = true then splitWsAux [] l'
                else [].reverse :: splitWsAux [] l'
              else splitWsAux [c] l') = _
        rw [if_pos hc]
        rfl
      rw [this]
    · rw [List.dropWhile_cons_of_neg hc]

theorem splitWsChars_pyStripChars (l : List Char) :
    splitWsChars (pyStripChars l) = splitWsChars l := by
  unfold splitWsChars pyStripChars
  have hdecomp : l.dropWhile isPyWs =
      ((l.dropWhile isPyWs).reverse.dropWhile isPyWs).reverse ++
        ((l.dropWhile isPyWs).reverse.takeWhile isPyWs).reverse := by
    conv_lhs => rw [← List.reverse_reverse (l.dropWhile isPyWs),
      ← List.takeWhile_append_dropWhile isPyWs (l.dropWhile isPyWs).reverse]
    rw [List.reverse_append]
  have hws : ∀ c ∈ ((l.dropWhile isPyWs).reverse.takeWhile isPyWs).reverse,
      isPyWs c = true := by
    intro c hc
    rw [List.mem_reverse] at hc
    exact List.mem_takeWhile_imp hc
  calc splitWsAux [] ((l.dropWhile isPyWs).reverse.dropWhile isPyWs).reverse
      = splitWsAux []
          (((l.dropWhile isPyWs).reverse.dropWhile isPyWs).reverse ++
            ((l.dropWhile isPyWs).reverse.takeWhile isPyWs).reverse) :=
        (splitWsAux_append_ws _ hws _ []).symm
    _ = splitWsAux [] (l.dropWhile isPyWs) := by rw [← hdecomp]
    _ = splitWsAux [] l := splitWsAux_dropWhile l

theorem splitWs_pyStrip (s : String) : splitWs (pyStrip s) = splitWs s := by
  unfold splitWs pyStrip
  rw [show (String.mk (pyStripChars s.data)).data = pyStripChars s.data from rfl,
    splitWsChars_pyStripChars]

theorem croniterAccepts_length {s : String} (h : croniterAccepts s = true) :
    (splitWs s).length = 5 ∨ (splitWs s).length = 6 := by
  unfold croniterAccepts parseCron at h
  rcases hsp : splitWs s with _ | ⟨f1, _ | ⟨f2, _ | ⟨f3, _ | ⟨f4, _ | ⟨f5, _ | ⟨f6, _ | ⟨f7, rest⟩⟩⟩⟩⟩⟩⟩ <;>
    rw [hsp] at h <;> simp_all

/-- The scheduler state after one `add_task` for task 1 from a fresh
manager. -/
def addedOnce : SchedulerState :=
  (add_task (initState []) 0 1 "t" "* * * * *" defaultArgs "Asia/Shanghai").2

/-- The scheduler state after a second `add_task` for the same task id,
with no intervening `remove_task`. -/
def addedTwice : SchedulerState :=
  (add_task addedOnce 0 1 "t" "* * * * *" defaultArgs "Asia/Shanghai").2

/-- C2 counterexample: re-adding an already registered task id does not
replace the previous timer.  Each `add_task` registers under a fresh
job id, so `replace_existing` never matches: after two `add_task` calls
for task 1 the registry holds only the newest handle but the scheduler
store holds two live jobs for task 1, not one. -/
theorem add_task_readd_duplicates_timer :
    (jobsForTask addedOnce 1).length = 1 ∧
    lookupTask addedTwice.task_registry 1 = some ⟨1, 1⟩ ∧
    (jobsForTask addedTwice 1).length = 2 ∧
    ¬(jobsForTask addedTwice 1).length = 1 :=
  ⟨by decide, by decide, by decide, by decide⟩

/-- C2 (amended): the registry maps each registered id to the single most
recent handle, and `remove_task` immediately followed by `add_task` for a
task id that had exactly one live timer leaves exactly one live timer;
however a bare `add_task` on an already registered id does not replace the
previous scheduler job — it leaves an additional live timer (see the
counterexample). -/
theorem remove_then_add_single_timer (st : SchedulerState) (now tid : Nat)
    (task_name cron : String) (args : JobArgs) (tz : String) (jid : JobId)
    (hwf : SchedWF st)
    (hreg : lookupTask st.task_registry tid = some jid)
    (hone : (jobsForTask st tid).length = 1)
    (hv : validate_cron_expression cron = true) :
    (jobsForTask (add_task (remove_task st tid).2 now tid task_name cron args tz).2 tid).length
      = 1 := by
  obtain ⟨hfresh, hreg_wf⟩ := hwf
  obtain ⟨htid, j, hjmem, hjid⟩ := hreg_wf (tid, jid) (lookupTask_mem hreg)
  have htid' : jid.taskId = tid := htid
  have hjid' : j.id = jid := hjid
  have hany : (st.jobs.any fun x => x.id = jid) = true :=
    List.any_eq_true.mpr ⟨j, hjmem, by simp [hjid']⟩
  have hst2 : (remove_task st tid).2 =
      { st with jobs := st.jobs.filter (fun x => x.id ≠ jid),
                task_registry := eraseReg st.task_registry tid } := by
    simp only [remove_task, hreg, hany, if_true]
  obtain ⟨a, ha⟩ := List.length_eq_one.mp hone
  have hj_in : j ∈ jobsForTask st tid :=
    List.mem_filter.mpr ⟨hjmem, by simp [hjid', htid']⟩
  have hja : j = a := by rw [ha] at hj_in; exact List.mem_singleton.mp hj_in
  have hempty : (st.jobs.filter (fun x => x.id ≠ jid)).filter
      (fun x => x.id.taskId = tid) = [] := by
    rw [List.filter_eq_nil_iff]
    intro x hx hpx
    obtain ⟨hxmem, hxne⟩ := List.mem_filter.mp hx
    have hx_in : x ∈ jobsForTask st tid := List.mem_filter.mpr ⟨hxmem, hpx⟩
    rw [ha] at hx_in
    have : x = a := List.mem_singleton.mp hx_in
    rw [this, ← hja, hjid'] at hxne
    simp at hxne
  have hparts : (splitWs (pyStrip cron)).length = 6 ∨
      (splitWs (pyStrip cron)).length = 5 := by
    rw [splitWs_pyStrip]
    exact (croniterAccepts_length hv).symm
  rw [add_task, if_neg (by simp [hv]), if_pos hparts, hst2]
  have hfresh2 : ((st.jobs.filter (fun x => x.id ≠ jid)).any
      fun x => x.id = (⟨tid, st.uuidCounter⟩ : JobId)) = false := by
    rw [List.any_eq_false]
    intro x hx
    have hxmem : x ∈ st.jobs := (List.mem_filter.mp hx).1
    have hlt := hfresh x hxmem
    intro hcontra
    simp only [decide_eq_true_eq] at hcontra
    rw [hcontra] at hlt
    exact lt_irrefl _ hlt
  show ((addJobReplace (st.jobs.filter (fun x => x.id ≠ jid))
      ⟨⟨tid, st.uuidCounter⟩, task_name, args, false⟩).filter
        (fun x => x.id.taskId = tid)).length = 1
  rw [addJobReplace, if_neg (by simpa using hfresh2), List.filter_append, hempty]
  simp

/-- Witness for C2's amended theorem at the concrete registered state
`stOneJob`. -/
theorem remove_then_add_single_timer_witness :
    SchedWF stOneJob ∧
    (jobsForTask (add_task (remove_task stOneJob 1).2 0 1 "t" "* * * * *"
        defaultArgs "Asia/Shanghai").2 1).length = 1 :=
  ⟨by unfold SchedWF; decide,
   remove_then_add_single_timer stOneJob 0 1 "t" "* * * * *" defaultArgs
     "Asia/Shanghai" ⟨1, 0⟩ (by unfold SchedWF; decide) rfl (by decide) (by decide)⟩

/-! ## C6: monotonicity of the next fire time -/

theorem searchNext_some_spec (c : CronSpec) :
    ∀ fuel t s, searchNext c fuel t = some s →
      t ≤ s ∧ s < t + fuel ∧ timeMatches c s = true := by
  intro fuel
  induction fuel with
  | zero => intro t s h; cases h
  | succ fuel ih =>
    intro t s h
    rw [searchNext] at h
    by_cases hm : timeMatches c t = true
    · rw [if_pos hm] at h
      cases h
      exact ⟨le_rfl, by omega, hm⟩
    · rw [if_neg hm] at h
      obtain ⟨h1, h2, h3⟩ := ih (t + 1) s h
      exact ⟨by omega, by omega, h3⟩

theorem searchNext_le_of_matches (c : CronSpec) :
    ∀ fuel t s, t ≤ s → s < t + fuel → timeMatches c s = true →
      ∃ r, searchNext c fuel t = some r ∧ r ≤ s := by
  intro fuel
  induction fuel with
  | zero => intro t s h1 h2 _; omega
  | succ fuel ih =>
    intro t s h1 h2 hs
    rw [searchNext]
    by_cases hm : timeMatches c t = true
    · exact ⟨t, by rw [if_pos hm], h1⟩
    · have hts : t ≠ s := fun he => hm (he ▸ hs)
      obtain ⟨r, hr, hrs⟩ := ih (t + 1) s (by omega) (by omega) hs
      exact ⟨r, by rw [if_neg hm]; exact hr, hrs⟩

/-- C6: the next fire time is monotonically non-decreasing in the base
time — for any cron expression and base times `t1 ≤ t2` for which
`get_next_run_time` computes fire times, the fire time from `t1` is at
most the fire time from `t2`. -/
theorem next_run_time_monotone (cron : String) (t1 t2 s1 s2 : Nat)
    (h12 : t1 ≤ t2)
    (h1 : get_next_run_time cron t1 = some s1)
    (h2 : get_next_run_time cron t2 = some s2) : s1 ≤ s2 := by
  unfold get_next_run_time at h1 h2
  cases hp : parseCron cron with
  | none => rw [hp] at h1; cases h1
  | some c =>
    rw [hp] at h1 h2
    have h1' : searchNext c cronSearchHorizon (t1 + 1) = some s1 := h1
    have h2' : searchNext c cronSearchHorizon (t2 + 1) = some s2 := h2
    obtain ⟨hs1a, hs1b, _⟩ := searchNext_some_spec c _ _ _ h1'
    obtain ⟨hs2a, _, hs2m⟩ := searchNext_some_spec c _ _ _ h2'
    by_cases hcase : s2 < t1 + 1 + cronSearchHorizon
    · obtain ⟨r, hr, hrs⟩ :=
        searchNext_le_of_matches c cronSearchHorizon (t1 + 1) s2 (by omega) hcase hs2m
      rw [h1'] at hr
      cases hr
      exact hrs
    · omega

/-- Witness for C6 with the every-second expression at base times 0 and 5. -/
theorem next_run_time_monotone_witness :
    get_next_run_time "* * * * * *" 0 = some 1 ∧
    get_next_run_time "* * * * * *" 5 = some 6 ∧ (1 : Nat) ≤ 6 :=
  ⟨by decide, by decide,
   next_run_time_monotone "* * * * * *" 0 5 1 6 (by omega) (by decide) (by decide)⟩

end MailApi
